import Mathlib

/-!
# Verification of the `ironn` text-buffer core

A shallow embedding of the grapheme-indexed line/document engine of the
`ironn` terminal editor (files `row.rs`, `document.rs`, `doc.rs`,
`doc_row.rs`, `filetype.rs`, `highlighting.rs`), together with proofs and
refutations of the specified properties.

Rust `String`s are modelled as `List Char` (a list of Unicode scalar
values); byte indices are recovered through an explicit UTF-8 length
function where the code mixes byte and character indexing.
-/

namespace Ironn

/-- A Rust `String` / `&str`, viewed as its sequence of `char`s. -/
abbrev Str := List Char

/-- UTF-8 encoded length, in bytes, of one Unicode scalar value
(mirrors `char::len_utf8`). -/
def utf8Len (c : Char) : Nat :=
  if c.toNat < 0x80 then 1
  else if c.toNat < 0x800 then 2
  else if c.toNat < 0x10000 then 3
  else 4

/-- Byte length of a string (`str::len`). -/
def strBytes (s : Str) : Nat := (s.map utf8Len).sum

/-- UTF-8 encoding of one scalar value as its byte sequence. -/
def utf8EncodeChar (c : Char) : List Nat :=
  let n := c.toNat
  if n < 0x80 then [n]
  else if n < 0x800 then [0xC0 + n / 0x40, 0x80 + n % 0x40]
  else if n < 0x10000 then
    [0xE0 + n / 0x1000, 0x80 + (n / 0x40) % 0x40, 0x80 + n % 0x40]
  else
    [0xF0 + n / 0x40000, 0x80 + (n / 0x1000) % 0x40,
      0x80 + (n / 0x40) % 0x40, 0x80 + n % 0x40]

/-- UTF-8 encoding of a string as its byte sequence (`str::as_bytes`). -/
def utf8Encode (s : Str) : List Nat := (s.map utf8EncodeChar).flatten

/--
The fragment of the extended-grapheme-cluster break property (UAX #29,
as implemented by the `unicode-segmentation` dependency) modelled here:
a scalar with the `Extend` property among the combining diacritical
marks U+0300–U+036F or the variation selectors U+FE00–U+FE0F, or the
zero-width joiner U+200D, does not begin a new cluster; every other
scalar does.  The crate's full rule set has further joins this fragment
omits — CR followed by LF (GB3), Hangul jamo (GB6–8), ZWJ emoji
sequences (GB11), regional-indicator pairs (GB12/13), and a much larger
`Extend` class — so the model coincides with the crate only on strings
whose scalars lie outside those classes.  Every theorem below applies
it only to such strings: ASCII without carriage returns, plus U+0301.
-/
def isExtend (c : Char) : Bool :=
  (decide (0x300 ≤ c.toNat) && decide (c.toNat ≤ 0x36F)) ||
  decide (c.toNat = 0x200D) ||
  (decide (0xFE00 ≤ c.toNat) && decide (c.toNat ≤ 0xFE0F))

/--
Model of `str::graphemes(true)` from the `unicode-segmentation`
dependency, under the break fragment `isExtend`: the string is cut into
clusters, with a new cluster starting at every scalar that is not an
extending scalar (and unconditionally at the start of the string).  It
is faithful to the crate exactly where `isExtend` is — on strings that
stay clear of the crate's join rules the fragment omits (see the
comment on `isExtend`) — and it is applied only to such strings.
-/
def graphemes : Str → List Str
  | [] => []
  | [c] => [[c]]
  | c :: d :: rest =>
    match graphemes (d :: rest) with
    | [] => [[c]]
    | g :: gs => if isExtend d then (c :: g) :: gs else [c] :: g :: gs

/-- `SearchDirection` from `editor.rs`. -/
inductive SearchDirection where
  | Forward
  | Backward
deriving DecidableEq

/-- `highlighting::Type` from `highlighting.rs`. -/
inductive HlType where
  | None
  | Number
  | Match
  | String
  | Character
  | Comment
  | MultilineComment
  | PrimaryKeywords
  | SecondaryKeywords
deriving DecidableEq, Repr

/-- `Row` from `row.rs`. -/
@[ext] structure Row where
  string : Str
  highlighting : List HlType
  len : Nat
  is_highlighted : Bool
deriving DecidableEq

/-- `Row::default()`. -/
def Row.default : Row :=
  { string := [], highlighting := [], len := 0, is_highlighted := false }

/-- `impl From<&str> for Row`: caches the grapheme count in `len`. -/
def Row.ofStr (s : Str) : Row :=
  { string := s, highlighting := [], len := (graphemes s).length,
    is_highlighted := false }

/-- The body of the grapheme loop in `Row::insert` for the `at < len`
case: the character `c` is pushed just before the cluster with index
`at_` while every cluster is copied through. -/
def insertLoop (at_ : Nat) (c : Char) : Nat → List Str → Str
  | _, [] => []
  | i, g :: gs => (if i = at_ then [c] else []) ++ g ++ insertLoop at_ c (i + 1) gs

/-- `Row::insert`: append (with a blind `len += 1`) when `at >= len`,
otherwise re-build the string from its clusters with `c` injected. -/
def Row.insert (r : Row) (at_ : Nat) (c : Char) : Row :=
  if at_ ≥ r.len then
    { r with string := r.string ++ [c], len := r.len + 1 }
  else
    { r with string := insertLoop at_ c 0 (graphemes r.string), len := r.len + 1 }

/-- The body of the grapheme loop in `Row::delete`: every cluster except
the one with index `at_` is copied through. -/
def deleteLoop (at_ : Nat) : Nat → List Str → Str
  | _, [] => []
  | i, g :: gs => (if i ≠ at_ then g else []) ++ deleteLoop at_ (i + 1) gs

/-- `Row::delete`: no-op when `at >= len`, otherwise re-build the string
from its clusters with cluster `at_` dropped and decrement `len`. -/
def Row.delete (r : Row) (at_ : Nat) : Row :=
  if at_ ≥ r.len then r
  else
    { r with string := deleteLoop at_ 0 (graphemes r.string), len := r.len - 1 }

/-- `Row::append`: concatenates the strings and adds the cached lengths. -/
def Row.append (r other : Row) : Row :=
  { r with string := r.string ++ other.string, len := r.len + other.len }

/-- The grapheme loop of `Row::split`: clusters with index `< at_` stay
(counted by the second component), the rest go to the split-off string. -/
def splitLoop (at_ : Nat) : Nat → List Str → Str × Nat × Str
  | _, [] => ([], 0, [])
  | i, g :: gs =>
    let r := splitLoop at_ (i + 1) gs
    if i < at_ then (g ++ r.1, r.2.1 + 1, r.2.2) else (r.1, r.2.1, g ++ r.2.2)

/-- `Row::split`: returns the truncated row and the split-off row; the
split-off row's `len` is `self.len - length` on the cached length. -/
def Row.split (r : Row) (at_ : Nat) : Row × Row :=
  let t := splitLoop at_ 0 (graphemes r.string)
  ({ r with string := t.1, len := t.2.1, is_highlighted := false },
   { string := t.2.2, highlighting := [], len := r.len - t.2.1,
     is_highlighted := false })

/-- Byte index of the first occurrence of `q` in `s`
(`str::find` for a string pattern). -/
def strFindAux (q : Str) : Str → Nat → Option Nat
  | [], acc => if q = [] then some acc else none
  | c :: rest, acc =>
    if q.isPrefixOf (c :: rest) then some acc
    else strFindAux q rest (acc + utf8Len c)

def strFind (q s : Str) : Option Nat := strFindAux q s 0

/-- Byte index of the last occurrence of `q` in `s` (`str::rfind`). -/
def strRFindAux (q : Str) : Str → Nat → Option Nat
  | [], acc => if q = [] then some acc else none
  | c :: rest, acc =>
    match strRFindAux q rest (acc + utf8Len c) with
    | some r => some r
    | none => if q.isPrefixOf (c :: rest) then some acc else none

def strRFind (q s : Str) : Option Nat := strRFindAux q s 0

/-- The `grapheme_indices` scan at the end of `Row::find`: the cluster
index whose starting byte offset equals `target`, if any. -/
def graphemeIndexOfByte (target : Nat) : Nat → Nat → List Str → Option Nat
  | _, _, [] => none
  | off, gi, g :: gs =>
    if target = off then some gi
    else graphemeIndexOfByte target (off + strBytes g) (gi + 1) gs

/-- `let start = ...` in `Row::find`. -/
def findStart (at_ : Nat) (dir : SearchDirection) : Nat :=
  if dir = SearchDirection.Forward then at_ else 0

/-- `let end = ...` in `Row::find`. -/
def findStop (r : Row) (at_ : Nat) (dir : SearchDirection) : Nat :=
  if dir = SearchDirection.Forward then r.len else at_

/-- `let substring = ...` in `Row::find`: the cluster window
`[start, end)` collected back into a string. -/
def findSubstring (r : Row) (at_ : Nat) (dir : SearchDirection) : Str :=
  (((graphemes r.string).drop (findStart at_ dir)).take
    (findStop r at_ dir - findStart at_ dir)).flatten

/-- `Row::find`: `None` for an empty query or `at > len`; otherwise
searches the cluster window by byte index (`find` forward, `rfind`
backward) and converts the byte index back to a cluster index. -/
def Row.find (r : Row) (query : Str) (at_ : Nat) (dir : SearchDirection) :
    Option Nat :=
  if at_ > r.len ∨ query = [] then none
  else
    match
      (if dir = SearchDirection.Forward
       then strFind query (findSubstring r at_ dir)
       else strRFind query (findSubstring r at_ dir)) with
    | some b =>
      (graphemeIndexOfByte b 0 0 (graphemes (findSubstring r at_ dir))).map
        (findStart at_ dir + ·)
    | none => none

/-- `Row::unhighlight`. -/
def Row.unhighlight (r : Row) : Row := { r with is_highlighted := false }

/-- `HighlightingOptions` from `filetype.rs`. -/
structure HighlightingOptions where
  numbers : Bool
  strings : Bool
  characters : Bool
  comments : Bool
  multiline_comments : Bool
  primary_keywords : List Str
  secondary_keywords : List Str
deriving DecidableEq

/-- `HighlightingOptions::default()`: everything disabled. -/
def HighlightingOptions.default : HighlightingOptions :=
  { numbers := false, strings := false, characters := false,
    comments := false, multiline_comments := false,
    primary_keywords := [], secondary_keywords := [] }

/-- `is_separator` from `row.rs`: ASCII punctuation or ASCII whitespace. -/
def isSeparator (c : Char) : Bool :=
  (decide (0x21 ≤ c.toNat) && decide (c.toNat ≤ 0x2F)) ||
  (decide (0x3A ≤ c.toNat) && decide (c.toNat ≤ 0x40)) ||
  (decide (0x5B ≤ c.toNat) && decide (c.toNat ≤ 0x60)) ||
  (decide (0x7B ≤ c.toNat) && decide (c.toNat ≤ 0x7E)) ||
  c = ' ' || c.toNat = 9 || c.toNat = 10 || c.toNat = 12 || c.toNat = 13

/-- The scan state of `Row::highlight`: the tags pushed so far and the
current character index. -/
structure HlState where
  hl : List HlType
  index : Nat
deriving DecidableEq

/-- The character-by-character comparison at the top of
`Row::highlight_str`: `chars.get(index + i)` must equal the `i`-th
character of the candidate substring for every `i`. -/
def hlStrCheck (chars : Str) : Str → Nat → Bool
  | [], _ => true
  | c :: rest, i =>
    match chars.get? i with
    | some c2 => c2 = c && hlStrCheck chars rest (i + 1)
    | none => false

/-- `Row::highlight_str`: on a match, pushes `substring.len()` (the BYTE
length) copies of the tag and advances the index by the same amount. -/
def hlStr (chars sub : Str) (st : HlState) (t : HlType) : Option HlState :=
  if sub = [] then none
  else if hlStrCheck chars sub st.index then
    some { hl := st.hl ++ List.replicate (strBytes sub) t,
           index := st.index + strBytes sub }
  else none

/-- The `for word in keywords` loop of `Row::highlight_keyword`: a word
whose following character exists and is not a separator is skipped;
otherwise the first word that matches wins. -/
def keywordLoop (chars : Str) (st : HlState) (t : HlType) :
    List Str → Option HlState
  | [] => none
  | w :: ws =>
    if st.index < chars.length - strBytes w ∧
        ¬ isSeparator (chars.getD (st.index + strBytes w) ' ') then
      keywordLoop chars st t ws
    else
      match hlStr chars w st t with
      | some st2 => some st2
      | none => keywordLoop chars st t ws

/-- `Row::highlight_keyword`: requires a separator immediately before the
candidate (the `chars[index - 1]` access is guarded by `index > 0`, and
the scan loop keeps `index < chars.len()`, so it is in bounds). -/
def hlKeyword (chars : Str) (st : HlState) (kws : List Str) (t : HlType) :
    Option HlState :=
  if st.index > 0 ∧ ¬ isSeparator (chars.getD (st.index - 1) ' ') then none
  else keywordLoop chars st t kws

/-- The closing-quote lookahead of `Row::highlight_char`: on success
pushes `closing_index - index + 1` tags and advances past the literal. -/
def hlCharClose (chars : Str) (st : HlState) (ci : Nat) : Option HlState :=
  match chars.get? ci with
  | some cc =>
    if cc = Char.ofNat 39 then
      some { hl := st.hl ++ List.replicate (ci - st.index + 1) HlType.Character,
             index := st.index + (ci - st.index + 1) }
    else none
  | none => none

/-- `Row::highlight_char`: `'x'` or `'\x'` with a closing-quote
lookahead. -/
def hlChar (opts : HighlightingOptions) (chars : Str) (c : Char)
    (st : HlState) : Option HlState :=
  if opts.characters ∧ c = Char.ofNat 39 then
    match chars.get? (st.index + 1) with
    | some next =>
      hlCharClose chars st
        (if next = Char.ofNat 92 then st.index + 3 else st.index + 2)
    | none => none
  else none

/-- The `loop` of `Row::highlight_string`.  The source's escape test
(`if *prev_char != '\\' { break }` followed by an unconditional `break`)
is dead: both branches break, so the loop always stops at the first
quote character after the opener, escaped or not.  The Rust `loop` is
modelled with a fuel parameter; each iteration advances the index by
one, so any fuel larger than the number of remaining characters is
exact (the fuel-0 value coincides with the loop's exit value and is
never produced from the call site below). -/
def stringLoop (chars : Str) : Nat → List HlType → Nat → List HlType × Nat
  | 0, hl, i => (hl ++ [HlType.String], i + 1)
  | fuel + 1, hl, i =>
    let hl2 := hl ++ [HlType.String]
    match chars.get? (i + 1) with
    | some nc =>
      if nc = Char.ofNat 34 then (hl2, i + 1)
      else stringLoop chars fuel hl2 (i + 1)
    | none => (hl2, i + 1)

/-- `Row::highlight_string`: after the loop, one more `String` tag is
pushed for the closing quote even when there is none (end of line). -/
def hlString (opts : HighlightingOptions) (chars : Str) (c : Char)
    (st : HlState) : Option HlState :=
  if opts.strings ∧ c = Char.ofNat 34 then
    let r := stringLoop chars (chars.length + 1) st.hl st.index
    some { hl := r.1 ++ [HlType.String], index := r.2 + 1 }
  else none

/-- `Row::highlight_comment`: `//` tags the rest of the line. -/
def hlComment (opts : HighlightingOptions) (chars : Str) (c : Char)
    (st : HlState) : Option HlState :=
  if opts.comments ∧ c = '/' ∧ st.index < chars.length then
    match chars.get? (st.index + 1) with
    | some next =>
      if next = '/' then
        some { hl := st.hl ++ List.replicate (chars.length - st.index) HlType.Comment,
               index := st.index + (chars.length - st.index) }
      else none
    | none => none
  else none

/-- Byte offset of the first occurrence of the two bytes `2A 2F`
(`"*/"`) in a byte sequence (`str::find("*/")` at the byte level). -/
def bytesFindStarSlash : List Nat → Option Nat
  | [] => none
  | [_] => none
  | a :: b :: rest =>
    if a = 0x2A ∧ b = 0x2F then some 0
    else (bytesFindStarSlash (b :: rest)).map (· + 1)

/-- `Row::highlight_multiline_comment`.  The source byte-slices
`self.string[*index + 2..]` with a CHARACTER index; the model drops
`index + 2` bytes of the UTF-8 encoding, which coincides with the source
on every reachable input used here (ASCII lines, where byte and
character indices agree; on other inputs the source can panic on a
non-boundary slice). -/
def mlPush (st : HlState) (ci : Nat) : HlState :=
  { hl := st.hl ++ List.replicate (ci - st.index) HlType.MultilineComment,
    index := st.index + (ci - st.index) }

def hlMultilineComment (opts : HighlightingOptions) (chars : Str) (c : Char)
    (st : HlState) : Option HlState :=
  if opts.multiline_comments ∧ c = '/' ∧ st.index < chars.length then
    match chars.get? (st.index + 1) with
    | some next =>
      if next = '*' then
        some (mlPush st
          (match bytesFindStarSlash ((utf8Encode chars).drop (st.index + 2)) with
           | some b => st.index + b + 4
           | none => chars.length))
      else none
    | none => none
  else none

/-- The `loop` of `Row::highlight_number`: a digit run with
dot-continuation (fuelled like `stringLoop`). -/
def numberLoop (chars : Str) : Nat → List HlType → Nat → List HlType × Nat
  | 0, hl, i => (hl ++ [HlType.Number], i + 1)
  | fuel + 1, hl, i =>
    let hl2 := hl ++ [HlType.Number]
    match chars.get? (i + 1) with
    | some nc =>
      if nc ≠ '.' ∧ ¬ nc.isDigit then (hl2, i + 1)
      else numberLoop chars fuel hl2 (i + 1)
    | none => (hl2, i + 1)

/-- `Row::highlight_number`: an ASCII digit not glued to a previous
non-separator character starts a number run. -/
def hlNumber (opts : HighlightingOptions) (chars : Str) (c : Char)
    (st : HlState) : Option HlState :=
  if opts.numbers ∧ c.isDigit then
    if st.index > 0 ∧ ¬ isSeparator (chars.getD (st.index - 1) ' ') then none
    else
      let r := numberLoop chars (chars.length + 1) st.hl st.index
      some { hl := r.1, index := r.2 }
  else none

theorem utf8Len_pos (c : Char) : 0 < utf8Len c := by
  unfold utf8Len
  split
  · omega
  split
  · omega
  split <;> omega

theorem strBytes_pos {s : Str} (h : s ≠ []) : 0 < strBytes s := by
  match s with
  | [] => exact absurd rfl h
  | c :: rest =>
    have := utf8Len_pos c
    simp only [strBytes, List.map_cons, List.sum_cons]
    omega

theorem hlStr_index_lt {chars sub : Str} {st st2 : HlState} {t : HlType}
    (h : hlStr chars sub st t = some st2) : st.index < st2.index := by
  unfold hlStr at h
  split at h
  · exact absurd h (by simp)
  next hne =>
    split at h
    · cases h
      have := strBytes_pos hne
      simp only
      omega
    · exact absurd h (by simp)

theorem keywordLoop_index_lt {chars : Str} {st st2 : HlState} {t : HlType}
    {ws : List Str} (h : keywordLoop chars st t ws = some st2) :
    st.index < st2.index := by
  induction ws with
  | nil => exact absurd h (by simp [keywordLoop])
  | cons w ws ih =>
    unfold keywordLoop at h
    split at h
    · exact ih h
    · split at h
      next heq => cases h; exact hlStr_index_lt heq
      · exact ih h

theorem hlKeyword_index_lt {chars : Str} {st st2 : HlState} {t : HlType}
    {kws : List Str} (h : hlKeyword chars st kws t = some st2) :
    st.index < st2.index := by
  unfold hlKeyword at h
  split at h
  · exact absurd h (by simp)
  · exact keywordLoop_index_lt h

theorem hlCharClose_index_lt {chars : Str} {st st2 : HlState} {ci : Nat}
    (h : hlCharClose chars st ci = some st2) : st.index < st2.index := by
  unfold hlCharClose at h
  split at h
  · split at h
    · cases h; simp only; omega
    · exact absurd h (by simp)
  · exact absurd h (by simp)

theorem hlChar_index_lt {opts : HighlightingOptions} {chars : Str} {c : Char}
    {st st2 : HlState} (h : hlChar opts chars c st = some st2) :
    st.index < st2.index := by
  unfold hlChar at h
  split at h
  · split at h
    · exact hlCharClose_index_lt h
    · exact absurd h (by simp)
  · exact absurd h (by simp)

theorem stringLoop_index_lt (chars : Str) (fuel : Nat) (hl : List HlType)
    (i : Nat) : i < (stringLoop chars fuel hl i).2 := by
  induction fuel generalizing hl i with
  | zero => exact Nat.lt_succ_self i
  | succ n ih =>
    unfold stringLoop
    rcases chars.get? (i + 1) with _ | nc
    · exact Nat.lt_succ_self i
    · dsimp only
      split
      · exact Nat.lt_succ_self i
      · exact Nat.lt_trans (Nat.lt_succ_self i)
          (ih (hl ++ [HlType.String]) (i + 1))

theorem hlString_index_lt {opts : HighlightingOptions} {chars : Str} {c : Char}
    {st st2 : HlState} (h : hlString opts chars c st = some st2) :
    st.index < st2.index := by
  unfold hlString at h
  split at h
  · cases h
    exact Nat.lt_trans
      (stringLoop_index_lt chars (chars.length + 1) st.hl st.index)
      (Nat.lt_succ_self _)
  · exact absurd h (by simp)

theorem hlComment_index_lt {opts : HighlightingOptions} {chars : Str} {c : Char}
    {st st2 : HlState} (h : hlComment opts chars c st = some st2) :
    st.index < st2.index := by
  unfold hlComment at h
  split at h
  next hc =>
    split at h
    · split at h
      · cases h; simp only; omega
      · exact absurd h (by simp)
    · exact absurd h (by simp)
  · exact absurd h (by simp)

theorem hlMultilineComment_index_lt {opts : HighlightingOptions} {chars : Str}
    {c : Char} {st st2 : HlState}
    (h : hlMultilineComment opts chars c st = some st2) :
    st.index < st2.index := by
  unfold hlMultilineComment at h
  split at h
  next hc =>
    split at h
    · split at h
      · cases h
        simp only [mlPush]
        split <;> omega
      · exact absurd h (by simp)
    · exact absurd h (by simp)
  · exact absurd h (by simp)

theorem numberLoop_index_lt (chars : Str) (fuel : Nat) (hl : List HlType)
    (i : Nat) : i < (numberLoop chars fuel hl i).2 := by
  induction fuel generalizing hl i with
  | zero => exact Nat.lt_succ_self i
  | succ n ih =>
    unfold numberLoop
    rcases chars.get? (i + 1) with _ | nc
    · exact Nat.lt_succ_self i
    · dsimp only
      split
      · exact Nat.lt_succ_self i
      · exact Nat.lt_trans (Nat.lt_succ_self i)
          (ih (hl ++ [HlType.Number]) (i + 1))

theorem hlNumber_index_lt {opts : HighlightingOptions} {chars : Str} {c : Char}
    {st st2 : HlState} (h : hlNumber opts chars c st = some st2) :
    st.index < st2.index := by
  unfold hlNumber at h
  split at h
  · split at h
    · exact absurd h (by simp)
    · cases h
      exact numberLoop_index_lt chars (chars.length + 1) st.hl st.index
  · exact absurd h (by simp)

/-- The `if self.highlight_char(..) || .. || self.highlight_number(..)`
chain of `Row::highlight`, in source order (short-circuiting). -/
def tryMatchers (opts : HighlightingOptions) (chars : Str) (c : Char)
    (st : HlState) : Option HlState :=
  match hlChar opts chars c st with
  | some s => some s
  | none =>
    match hlComment opts chars c st with
    | some s => some s
    | none =>
      match hlKeyword chars st opts.primary_keywords HlType.PrimaryKeywords with
      | some s => some s
      | none =>
        match hlKeyword chars st opts.secondary_keywords HlType.SecondaryKeywords with
        | some s => some s
        | none =>
          match hlString opts chars c st with
          | some s => some s
          | none => hlNumber opts chars c st

theorem tryMatchers_index_lt {opts : HighlightingOptions} {chars : Str}
    {c : Char} {st st2 : HlState} (h : tryMatchers opts chars c st = some st2) :
    st.index < st2.index := by
  unfold tryMatchers at h
  split at h
  next heq => cases h; exact hlChar_index_lt heq
  split at h
  next heq => cases h; exact hlComment_index_lt heq
  split at h
  next heq => cases h; exact hlKeyword_index_lt heq
  split at h
  next heq => cases h; exact hlKeyword_index_lt heq
  split at h
  next heq => cases h; exact hlString_index_lt heq
  exact hlNumber_index_lt h

/-- The main `while let Some(c) = chars.get(index)` scan of
`Row::highlight`.  `inMl` is the loop-carried `in_ml_comment` flag: it is
set (and never cleared) whenever `highlight_multiline_comment` fires.
The `while` is modelled with a fuel parameter: every successful matcher
strictly advances the index (the `…_index_lt` lemmas above) and the loop
exits once the index passes the end, so `chars.length + 1` fuel at the
call site is exact; the fuel-0 value coincides with the exit value. -/
def highlightLoop (opts : HighlightingOptions) (chars : Str) :
    Nat → HlState → Bool → List HlType × Bool
  | 0, st, inMl => (st.hl, inMl)
  | fuel + 1, st, inMl =>
    match chars.get? st.index with
    | none => (st.hl, inMl)
    | some c =>
      match hlMultilineComment opts chars c st with
      | some st2 => highlightLoop opts chars fuel st2 true
      | none =>
        match tryMatchers opts chars c st with
        | some st2 => highlightLoop opts chars fuel st2 inMl
        | none =>
          highlightLoop opts chars fuel
            { hl := st.hl ++ [HlType.None], index := st.index + 1 } inMl

/-- The body of `for i in search_match..next_index`, recursing on the
iteration count. -/
def setMatchGo : List HlType → Nat → Nat → List HlType
  | hl, _, 0 => hl
  | hl, i, n + 1 => setMatchGo (hl.set i HlType.Match) (i + 1) n

/-- `for i in search_match..next_index { self.highlighting[i] = Match }`.
`List.set` ignores an out-of-range index, where Rust would panic; all
reachable states here keep the tag list at least as long as the cached
grapheme count, so the access is in bounds. -/
def setMatchRange (hl : List HlType) (i stop : Nat) : List HlType :=
  setMatchGo hl i (stop - i)

theorem graphemes_ne_nil {s : Str} (h : s ≠ []) : graphemes s ≠ [] := by
  match s with
  | [] => exact absurd rfl h
  | [c] => exact fun hx => List.cons_ne_nil _ _ hx
  | c :: d :: r =>
    unfold graphemes
    rcases hg : graphemes (d :: r) with _ | ⟨g, gs⟩
    · simp
    · dsimp only
      split <;> simp

theorem find_some_guard {r : Row} {q : Str} {a m : Nat} {dir : SearchDirection}
    (h : r.find q a dir = some m) : a ≤ r.len ∧ q ≠ [] := by
  unfold Row.find at h
  split at h
  · exact absurd h (by simp)
  next hguard =>
    push_neg at hguard
    exact hguard

theorem find_some_forward_le {r : Row} {q : Str} {a m : Nat}
    (h : r.find q a SearchDirection.Forward = some m) : a ≤ m := by
  unfold Row.find at h
  split at h
  · exact absurd h (by simp)
  · split at h
    · rcases Option.map_eq_some'.mp h with ⟨gi, _, hgi⟩
      simp [findStart] at hgi
      omega
    · exact absurd h (by simp)

/-- The `while let Some(search_match) = self.find(..)` loop of
`Row::highlight_match` (the `checked_add` never overflows on `Nat`).
Fuelled: every found match starts at or after the running index and a
nonempty word advances it by at least one grapheme
(`find_some_forward_le`, `graphemes_ne_nil`), and `find` returns `None`
once the index passes `len`, so `r.len + 2` fuel at the call site is
exact. -/
def matchOverlayLoop (r : Row) (w : Str) :
    Nat → List HlType → Nat → List HlType
  | 0, hl, _ => hl
  | fuel + 1, hl, index =>
    match r.find w index SearchDirection.Forward with
    | some m =>
      matchOverlayLoop r w fuel
        (setMatchRange hl m (m + (graphemes w).length))
        (m + (graphemes w).length)
    | none => hl

/-- `Row::highlight_match`: overlays `Match` tags over every forward
occurrence of the search word. -/
def Row.highlightMatch (r : Row) (hl : List HlType) (word : Option Str) :
    List HlType :=
  match word with
  | none => hl
  | some w => if w = [] then hl else matchOverlayLoop r w (r.len + 2) hl 0

/-- `Row::highlight(opts, word, start_with_comment) -> bool`, returning
the updated row together with the returned flag.  The carried-in-comment
prefix uses the byte index of `"*/"` both as a tag count and as the
resume character index, as the source does; the final `ends with "*/"`
test compares the last two BYTES of the string. -/
def Row.highlight (r : Row) (opts : HighlightingOptions) (word : Option Str)
    (start_with_comment : Bool) : Row × Bool :=
  let chars := r.string
  if r.is_highlighted ∧ word = none then (r, false)
  else
    let init : HlState :=
      if start_with_comment then
        let ci :=
          match bytesFindStarSlash (utf8Encode r.string) with
          | some b => b + 2
          | none => chars.length
        { hl := List.replicate ci HlType.MultilineComment, index := ci }
      else { hl := [], index := 0 }
    let res := highlightLoop opts chars (chars.length + 1) init start_with_comment
    let hl2 := r.highlightMatch res.1 word
    if res.2 ∧ (utf8Encode r.string).drop (strBytes r.string - 2) ≠ [0x2A, 0x2F]
    then ({ r with highlighting := hl2 }, true)
    else ({ r with highlighting := hl2, is_highlighted := true }, false)

/-- `Position` (`editor.rs` / `app.rs`): `x` is the grapheme column, `y`
the row. -/
structure Position where
  x : Nat
  y : Nat
deriving DecidableEq

/-- ASCII-lowercase of one character (for `eq_ignore_ascii_case`). -/
def asciiLower (c : Char) : Char :=
  if 0x41 ≤ c.toNat ∧ c.toNat ≤ 0x5A then Char.ofNat (c.toNat + 0x20) else c

/-- `ext.eq_ignore_ascii_case("rs")`. -/
def eqIgnoreAsciiCase (a b : Str) : Bool :=
  a.map asciiLower = b.map asciiLower

/-- The final path component of a file name (`Path::file_name`),
modelling paths as `'/'`-separated. -/
def lastComponent (s : Str) : Str :=
  match s with
  | [] => []
  | c :: rest =>
    let r := lastComponent rest
    if c = '/' then (if rest.contains '/' then r else rest) else
      if s.contains '/' then r else s

/-- Index of the last `'.'` of `comp` at a position `≥ 1`, if any:
`Path::extension` yields the part after it (a leading dot alone marks a
hidden file and yields no extension). -/
def lastDotIndex (comp : Str) : Option Nat :=
  (List.range comp.length).foldl
    (fun acc i => if 1 ≤ i ∧ comp.get? i = some '.' then some i else acc) none

/-- `Path::new(file_name).extension()`, modelled for `'/'`-separated
paths: the suffix of the final component after its last interior dot. -/
def pathExtension (s : Str) : Option Str :=
  let comp := lastComponent s
  match lastDotIndex comp with
  | some i => some (comp.drop (i + 1))
  | none => none

/-- `FileType` from `filetype.rs`. -/
structure FileType where
  name : Str
  hl_opts : HighlightingOptions
deriving DecidableEq

/-- `FileType::default()`: `"No filetype"`, everything disabled. -/
def FileType.default : FileType :=
  { name := "No filetype".toList, hl_opts := HighlightingOptions.default }

/-- The Rust rule set of `FileType::from`. -/
def rustHighlightingOptions : HighlightingOptions :=
  { numbers := true, strings := true, characters := true,
    comments := true, multiline_comments := true,
    primary_keywords :=
      ["as", "break", "const", "continue", "crate", "else", "enum",
       "extern", "false", "fn", "for", "if", "impl", "in", "let", "loop",
       "match", "mod", "move", "mut", "pub", "ref", "return", "self",
       "Self", "static", "struct", "super", "trait", "true", "type",
       "unsafe", "use", "where", "while", "dyn", "abstract", "become",
       "box", "do", "final", "macro", "override", "priv", "typeof",
       "unsized", "virtual", "yield", "async", "await", "try"
      ].map String.toList,
    secondary_keywords :=
      ["bool", "char", "i8", "i16", "i32", "i64", "isize", "u8", "u16",
       "u32", "u64", "usize", "f32", "f64"].map String.toList }

/-- `FileType::from(file_name)`: the Rust rule set for a (case
insensitive) `rs` extension, the default otherwise. -/
def FileType.fromName (file_name : Str) : FileType :=
  match pathExtension file_name with
  | some ext =>
    if eqIgnoreAsciiCase ext "rs".toList then
      { name := "Rust".toList, hl_opts := rustHighlightingOptions }
    else FileType.default
  | none => FileType.default

/-- `Document` from `document.rs`. -/
structure Document where
  rows : List Row
  file_name : Option Str
  dirty : Bool
  file_type : FileType
deriving DecidableEq

/-- `Document::default()`. -/
def Document.default : Document :=
  { rows := [], file_name := none, dirty := false, file_type := FileType.default }

/-- `Document::open`, applied to the decoded file contents already split
into lines (`contents.lines()`), never failing (the I/O failure case is
handled by the caller falling back to the default document). -/
def Document.openLines (lines : List Str) (filename : Str) : Document :=
  { rows := lines.map Row.ofStr,
    file_name := some filename,
    dirty := false,
    file_type := FileType.fromName filename }

def Document.len (d : Document) : Nat := d.rows.length

/-- `usize` wrapping subtraction of 1, as released Rust evaluates
`at.y - 1` (a debug build would panic on overflow at `y = 0`). -/
def usizeWrapSub1 (y : Nat) : Nat := if y = 0 then 2 ^ 64 - 1 else y - 1

/-- `Document::unhighlight_rows`. -/
def Document.unhighlight_rows (d : Document) (start : Nat) : Document :=
  { d with
    rows := d.rows.mapIdx
      (fun i r => if start - 1 ≤ i then r.unhighlight else r) }

/-- `Document::insert_newline`. -/
def Document.insert_newline (d : Document) (at_ : Position) : Document :=
  if at_.y > d.rows.length then d
  else if at_.y = d.rows.length then { d with rows := d.rows ++ [Row.default] }
  else
    match d.rows.get? at_.y with
    | some current_row =>
      let p := current_row.split at_.x
      { d with
        rows := (d.rows.set at_.y p.1).insertIdx (at_.y + 1) p.2 }
    | none => d

/-- `Document::insert` (`document.rs`).  `none` models a panic: the
`self.rows[at.y - 1]` indexing is out of bounds whenever
`at.y - 1 ≥ len`, which the wrapping guard `at.y - 1 > len` does not
rule out (it admits `at.y = len + 1`). -/
def Document.insert (d : Document) (at_ : Position) (c : Char) :
    Option Document :=
  if usizeWrapSub1 at_.y > d.rows.length then some d
  else
    let d1 : Document := { d with dirty := true }
    if c = Char.ofNat 10 then
      some ((d1.insert_newline at_).unhighlight_rows at_.y)
    else if at_.y = d1.rows.length then
      some ({ d1 with
        rows := d1.rows ++ [Row.default.insert 0 c] }.unhighlight_rows at_.y)
    else
      match d1.rows.get? (at_.y - 1) with
      | some row =>
        some ({ d1 with
          rows := d1.rows.set (at_.y - 1) (row.insert at_.x c)
          }.unhighlight_rows at_.y)
      | none => none

/-- `Document::delete` (`document.rs`): within-range rows only; sets
`dirty` before looking at the column. -/
def Document.delete (d : Document) (at_ : Position) : Document :=
  if at_.y ≥ d.len then d
  else
    let d1 : Document := { d with dirty := true }
    match d1.rows.get? at_.y with
    | some row =>
      if at_.x = row.len ∧ at_.y + 1 < d.len then
        match d1.rows.get? (at_.y + 1) with
        | some next_row =>
          ({ d1 with
            rows := (d1.rows.eraseIdx (at_.y + 1)).set at_.y
              (row.append next_row) }).unhighlight_rows at_.y
        | none => d1
      else
        ({ d1 with
          rows := d1.rows.set at_.y (row.delete at_.x) }).unhighlight_rows at_.y
    | none => d1

/-- One outcome of writing a row during `Document::save`: the io
operations are numbered (0 = `File::create`, then two `write_all` per
row) and `failAt = some k` makes the `k`-th operation fail. -/
def saveWriteLoop (rows : List Row) (op : Nat) (failAt : Option Nat) :
    Except Unit Str :=
  match rows with
  | [] => Except.ok []
  | r :: rs =>
    if failAt = some op ∨ failAt = some (op + 1) then Except.error ()
    else
      match saveWriteLoop rs (op + 2) failAt with
      | Except.ok w => Except.ok (r.string ++ [Char.ofNat 10] ++ w)
      | Except.error e => Except.error e

/-- `Document::save`, with the file system abstracted by `failAt`: `Ok`
with nothing written when the name is unset; otherwise re-derives the
file type after a successful create, writes every row followed by a
newline, and clears `dirty` only when every write succeeded. -/
def Document.save (d : Document) (failAt : Option Nat) :
    Document × Except Unit Str :=
  match d.file_name with
  | none => (d, Except.ok [])
  | some file_name =>
    if failAt = some 0 then (d, Except.error ())
    else
      let d1 : Document := { d with file_type := FileType.fromName file_name }
      match saveWriteLoop d.rows 1 failAt with
      | Except.ok w => ({ d1 with dirty := false }, Except.ok w)
      | Except.error e => (d1, Except.error e)

/-- The `for _ in start..end` scan of `Document::find`, iterating a
fixed number of times over a moving position. -/
def findLoop (d : Document) (query : Str) (dir : SearchDirection) :
    Nat → Position → Option Position
  | 0, _ => none
  | n + 1, pos =>
    match d.rows.get? pos.y with
    | some row =>
      match row.find query pos.x dir with
      | some x => some { x := x, y := pos.y }
      | none =>
        if dir = SearchDirection.Forward then
          findLoop d query dir n { x := 0, y := pos.y + 1 }
        else
          findLoop d query dir n
            { x := ((d.rows.getD (pos.y - 1) Row.default).len),
              y := pos.y - 1 }
    | none => none

/-- `Document::find`. -/
def Document.find (d : Document) (query : Str) (at_ : Position)
    (dir : SearchDirection) : Option Position :=
  if at_.y ≥ d.rows.length then none
  else
    let start := if dir = SearchDirection.Forward then at_.y else 0
    let stop :=
      if dir = SearchDirection.Forward then d.rows.length else at_.y + 1
    findLoop d query dir (stop - start) { x := at_.x, y := at_.y }

/-- The `for row in &mut self.rows[..until]` fold of
`Document::highlight`, threading `start_with_comment`. -/
def highlightRowsLoop (opts : HighlightingOptions) (word : Option Str) :
    List Row → Bool → List Row
  | [], _ => []
  | r :: rs, swc =>
    let p := r.highlight opts word swc
    p.1 :: highlightRowsLoop opts word rs p.2

/-- `Document::highlight`: rows `0..until` are re-highlighted in order,
each row's returned flag feeding the next row's `start_with_comment`,
starting from `false`. -/
def Document.highlight (d : Document) (word : Option Str)
    (untilRow : Option Nat) : Document :=
  let u :=
    match untilRow with
    | some u => if u + 1 < d.rows.length then u + 1 else d.rows.length
    | none => d.rows.length
  { d with
    rows :=
      highlightRowsLoop d.file_type.hl_opts word (d.rows.take u) false ++
        d.rows.drop u }

/-- `Row` from `doc_row.rs` (the parallel implementation: no
highlighting state). -/
structure DocRow where
  string : Str
  len : Nat
deriving DecidableEq

def DocRow.default : DocRow := { string := [], len := 0 }

/-- `impl From<&str> for doc_row::Row`. -/
def DocRow.ofStr (s : Str) : DocRow :=
  { string := s, len := (graphemes s).length }

/-- `doc_row::Row::insert` (same algorithm as `row.rs`). -/
def DocRow.insert (r : DocRow) (at_ : Nat) (c : Char) : DocRow :=
  if at_ ≥ r.len then { r with string := r.string ++ [c], len := r.len + 1 }
  else
    { r with
      string := insertLoop at_ c 0 (graphemes r.string)
      len := r.len + 1 }

/-- `doc_row::Row::delete`. -/
def DocRow.delete (r : DocRow) (at_ : Nat) : DocRow :=
  if at_ ≥ r.len then r
  else
    { r with string := deleteLoop at_ 0 (graphemes r.string), len := r.len - 1 }

/-- `doc_row::Row::append`. -/
def DocRow.append (r other : DocRow) : DocRow :=
  { r with string := r.string ++ other.string, len := r.len + other.len }

/-- `doc_row::Row::split`. -/
def DocRow.split (r : DocRow) (at_ : Nat) : DocRow × DocRow :=
  let t := splitLoop at_ 0 (graphemes r.string)
  ({ r with string := t.1, len := t.2.1 },
   { string := t.2.2, len := r.len - t.2.1 })

/-- `Doc` from `doc.rs` (the parallel document implementation). -/
structure Doc where
  rows : List DocRow
  file_name : Option Str
  file_type : FileType
  dirty : Bool
deriving DecidableEq

def Doc.default : Doc :=
  { rows := [], file_name := none, file_type := FileType.default,
    dirty := false }

def Doc.len (d : Doc) : Nat := d.rows.length

/-- `Doc::delete` (`doc.rs`).  `none` models a panic: the guard admits
`at.y = len`, after which `self.rows.get(at.y).unwrap()` panics. -/
def Doc.delete (d : Doc) (at_ : Position) : Option Doc :=
  if at_.y > d.rows.length then some d
  else
    let d1 : Doc := { d with dirty := true }
    match d1.rows.get? at_.y with
    | none => none
    | some row =>
      if at_.x = row.len ∧ at_.y + 1 < d.len then
        match d1.rows.get? (at_.y + 1) with
        | some next_row =>
          some { d1 with
            rows := (d1.rows.eraseIdx (at_.y + 1)).set at_.y
              (row.append next_row) }
        | none => some d1
      else
        some { d1 with rows := d1.rows.set at_.y (row.delete at_.x) }

/-- The `Line` invariant of the spec: the cached `len` equals the number
of grapheme clusters of the stored string. -/
def RowWF (r : Row) : Prop := r.len = (graphemes r.string).length

instance (r : Row) : Decidable (RowWF r) := by
  unfold RowWF
  infer_instance

/-- What a successful `Document::save` writes: every row's content
followed by one newline, in row order. -/
def saveContent (rows : List Row) : Str :=
  (rows.map (fun r => r.string ++ [Char.ofNat 10])).flatten

/-- The strings of a document's rows (its text content). -/
def docStrings (d : Document) : List Str := d.rows.map (fun r => r.string)

/-- One keyboard-driven document operation, for reasoning about
sequences of edits (`failAt` abstracts the file system as in
`Document.save`). -/
inductive EditOp where
  | ins (p : Position) (c : Char)
  | del (p : Position)
  | sav (failAt : Option Nat)

/-- A document together with the content at its last successful save (or
load) — the baseline the `dirty` flag is specified against. -/
structure TrackedDoc where
  d : Document
  baseline : List Str

/-- Open a document and record its content as the baseline. -/
def TrackedDoc.openFrom (lines : List Str) (name : Str) : TrackedDoc :=
  { d := Document.openLines lines name,
    baseline := docStrings (Document.openLines lines name) }

/-- Apply one operation; `none` models a panic inside
`Document::insert`.  A successful save (with a file name present)
re-baselines; a failed or no-name save does not. -/
def stepOp (t : TrackedDoc) : EditOp → Option TrackedDoc
  | EditOp.ins p c => (t.d.insert p c).map (fun d2 => { t with d := d2 })
  | EditOp.del p => some { t with d := t.d.delete p }
  | EditOp.sav f =>
    match (t.d.save f).2 with
    | Except.ok _ =>
      some { d := (t.d.save f).1,
             baseline :=
               if t.d.file_name = none then t.baseline
               else docStrings (t.d.save f).1 }
    | Except.error _ => some { d := (t.d.save f).1, baseline := t.baseline }

/-- Run a sequence of operations, stopping at a panic. -/
def runOps (t : TrackedDoc) : List EditOp → Option TrackedDoc
  | [] => some t
  | op :: ops =>
    match stepOp t op with
    | some t2 => runOps t2 ops
    | none => none

/-- Options with only the primary keyword `"for"` (keyword highlighting
is not gated by a flag in the source: it is enabled by a nonempty list). -/
def kwOnlyForOptions : HighlightingOptions :=
  { HighlightingOptions.default with primary_keywords := ["for".toList] }

/-- Options with only string-literal highlighting enabled. -/
def stringsOnlyOptions : HighlightingOptions :=
  { HighlightingOptions.default with strings := true }

/-- The two-row document of the search example. -/
def searchExampleDoc : Document :=
  Document.openLines ["a cat".toList, "cat dog".toList] "t.txt".toList

/-- The line `"a\"b"`: quote, a, backslash, quote, b, quote. -/
def escapedQuoteLine : Str :=
  [Char.ofNat 34, 'a', Char.ofNat 92, Char.ofNat 34, 'b', Char.ofNat 34]

/--
C1: the insert/delete round trip fails on a real input: on the
one-grapheme row `"a"`, `Row::insert(1, U+0301)` takes the `at >= len`
path, pushing the combining acute accent onto the string — where it
merges into the existing cluster — while still executing `len += 1`.
The following `Row::delete(1)` then iterates the single grapheme
`"a\u{301}"`, whose only index is 0, so it removes nothing: the string
stays `"a\u{301}"` instead of returning to `"a"`.  (On these two code
points the embedded segmentation agrees exactly with the crate: U+0301
has the UAX #29 `Extend` property.)
-/
theorem C1_roundtrip_fails :
    ((Row.ofStr ['a']).insert 1 (Char.ofNat 0x301)).delete 1 ≠
      Row.ofStr ['a'] ∧
    (((Row.ofStr ['a']).insert 1 (Char.ofNat 0x301)).delete 1).string =
      ['a', Char.ofNat 0x301] ∧
    graphemes ['a', Char.ofNat 0x301] = [['a', Char.ofNat 0x301]] := by
  refine ⟨by decide, by decide, by decide⟩

/--
C3: the Line invariant is not preserved: inserting the combining accent
U+0301 at the end of the well-formed one-grapheme row `"e"` leaves the
cached `len` at 2 while the stored string `"e\u{301}"` is a single
grapheme cluster; and highlighting that row (every category disabled,
no search word) emits one tag per code point — 2 tags over the 1
grapheme — because the scan loop pushes per `char` (and `highlight_str`
even per byte), never per cluster.
-/
theorem C3_invariant_fails :
    RowWF (Row.ofStr ['e']) ∧
    ¬ RowWF ((Row.ofStr ['e']).insert 1 (Char.ofNat 0x301)) ∧
    ((Row.ofStr ['e']).insert 1 (Char.ofNat 0x301)).len = 2 ∧
    (graphemes (((Row.ofStr ['e']).insert 1 (Char.ofNat 0x301)).string)).length
      = 1 ∧
    ((Row.ofStr ['e', Char.ofNat 0x301]).highlight HighlightingOptions.default
        none false).1.highlighting.length = 2 := by
  refine ⟨by decide, by decide, by decide, by decide, by decide⟩

/--
C2: the out-of-range guards of `Document::insert` (`at.y - 1 > len`, a
wrapping off-by-one) and `Doc::delete` (`at.y > len` followed by an
`unwrap`) do NOT make every out-of-range position a silent no-op: insert
at row `len() + 1` indexes `rows[at.y - 1]` out of bounds and panics
(modelled as `none`), and delete at row `len()` unwraps `None` and
panics — on the empty document this is row 0.
-/
theorem C2_out_of_range_panics :
    Document.insert Document.default { x := 0, y := 1 } 'a' = none ∧
    Doc.delete Doc.default { x := 0, y := 0 } = none ∧
    Document.insert (Document.openLines [['a']] ['t']) { x := 0, y := 2 } 'b'
      = none ∧
    Doc.delete { Doc.default with rows := [DocRow.ofStr ['a']] }
      { x := 1, y := 1 } = none := by
  refine ⟨by decide, by decide, by decide, by decide⟩

/--
C4: `Row::highlight` does not return `false` when a carried-in block
comment is closed by `*/` earlier in the line: on `"*/ x"` with
`start_with_comment = true` the comment is closed at the start of the
line (the trailing `" x"` is tagged `None`, not comment), yet the
function returns `true` because `in_ml_comment` is never reset; a
self-closed `/* a */` followed by more text also returns `true`.
-/
theorem C4_flag_eval :
    ((Row.ofStr "*/ x".toList).highlight rustHighlightingOptions none true).2
      = true ∧
    ((Row.ofStr "*/ x".toList).highlight rustHighlightingOptions none
        true).1.highlighting =
      [HlType.MultilineComment, HlType.MultilineComment, HlType.None,
        HlType.None] ∧
    ((Row.ofStr "/* a */ b".toList).highlight rustHighlightingOptions none
        false).2 = true ∧
    ((Row.ofStr "/* a */".toList).highlight rustHighlightingOptions none
        false).2 = false := by
  refine ⟨by decide, by decide, by decide, by decide⟩

theorem hlStr_some_index {chars sub : Str} {st st2 : HlState} {t : HlType}
    (h : hlStr chars sub st t = some st2) :
    st2.index = st.index + strBytes sub := by
  unfold hlStr at h
  split at h
  · exact absurd h (by simp)
  · split at h
    · cases h
      rfl
    · exact absurd h (by simp)

theorem keywordLoop_post_boundary {chars : Str} {st st2 : HlState}
    {t : HlType} {ws : List Str} (h : keywordLoop chars st t ws = some st2) :
    st2.index ≥ chars.length ∨
      isSeparator (chars.getD st2.index ' ') = true := by
  induction ws with
  | nil => exact absurd h (by simp [keywordLoop])
  | cons w rest ih =>
    unfold keywordLoop at h
    split at h
    · exact ih h
    next hcond =>
      split at h
      next heq =>
        cases h
        rw [hlStr_some_index heq]
        push_neg at hcond
        by_cases hin : st.index < chars.length - strBytes w
        · exact Or.inr (by simpa using hcond hin)
        · left
          omega
      · exact ih h

theorem hlKeyword_post_boundary {chars : Str} {st st2 : HlState}
    {kws : List Str} {t : HlType} (h : hlKeyword chars st kws t = some st2) :
    st2.index ≥ chars.length ∨
      isSeparator (chars.getD st2.index ' ') = true := by
  unfold hlKeyword at h
  split at h
  · exact absurd h (by simp)
  · exact keywordLoop_post_boundary h

/--
C8: with primary keyword `"for"`, highlighting `"forever"` marks no
grapheme as a primary keyword, `"for x"` marks exactly the first three;
and in general a keyword matches only with a separator boundary (or the
line edge) on both sides: immediately before the candidate, and
immediately after the matched span.
-/
theorem C8_keyword_boundary :
    ((Row.ofStr "forever".toList).highlight kwOnlyForOptions none
        false).1.highlighting = List.replicate 7 HlType.None ∧
    ((Row.ofStr "for x".toList).highlight kwOnlyForOptions none
        false).1.highlighting =
      [HlType.PrimaryKeywords, HlType.PrimaryKeywords, HlType.PrimaryKeywords,
        HlType.None, HlType.None] ∧
    (∀ (chars : Str) (st st2 : HlState) (kws : List Str) (t : HlType),
      hlKeyword chars st kws t = some st2 →
      (st.index = 0 ∨ isSeparator (chars.getD (st.index - 1) ' ') = true) ∧
        (st2.index ≥ chars.length ∨
          isSeparator (chars.getD st2.index ' ') = true)) := by
  refine ⟨by decide, by decide, ?_⟩
  intro chars st st2 kws t h
  refine ⟨?_, hlKeyword_post_boundary h⟩
  unfold hlKeyword at h
  split at h
  · exact absurd h (by simp)
  next hcond =>
    by_cases hz : st.index = 0
    · exact Or.inl hz
    · right
      push_neg at hcond
      by_contra hsep
      exact hsep (by simpa using hcond (by omega))

/-- Witness for the boundary clause of `C8_keyword_boundary`: on
`"for x"` at index 0 the keyword matcher fires; index 0 is a line-start
boundary and the character after the span (the space at index 3) is a
separator. -/
theorem C8_keyword_boundary_witness :
    hlKeyword "for x".toList { hl := [], index := 0 } ["for".toList]
        HlType.PrimaryKeywords =
      some { hl := [HlType.PrimaryKeywords, HlType.PrimaryKeywords,
        HlType.PrimaryKeywords], index := 3 } ∧
    (((0 : Nat) = 0 ∨
        isSeparator ("for x".toList.getD (0 - 1) ' ') = true) ∧
      ((3 : Nat) ≥ "for x".toList.length ∨
        isSeparator ("for x".toList.getD 3 ' ') = true)) := by
  refine ⟨by decide, ?_⟩
  exact C8_keyword_boundary.2.2 "for x".toList { hl := [], index := 0 }
    { hl := [HlType.PrimaryKeywords, HlType.PrimaryKeywords,
      HlType.PrimaryKeywords], index := 3 } ["for".toList]
    HlType.PrimaryKeywords (by decide)

/--
C9: string-literal highlighting is NOT escape-aware: on the line
`"a\"b"` (with string highlighting enabled) the escaped interior quote
terminates the `String` span, leaving `b` tagged `None` — the escape
test in the source is dead code (both branches of the check break the
loop), while the claim requires the span to run through the first
unescaped quote.
-/
theorem C9_escaped_quote_eval :
    ((Row.ofStr escapedQuoteLine).highlight stringsOnlyOptions none
        false).1.highlighting =
      [HlType.String, HlType.String, HlType.String, HlType.String,
        HlType.None, HlType.String, HlType.String] := by
  decide

/--
C10: `Row::find` returns `None` whenever the query is empty or the start
index exceeds the cached grapheme length, for every row and direction.
-/
theorem C10_find_rejects (r : Row) (q : Str) (a : Nat)
    (dir : SearchDirection) (h : q = [] ∨ a > r.len) :
    r.find q a dir = none := by
  unfold Row.find
  rw [if_pos (by tauto)]

/-- Witness for `C10_find_rejects`: an out-of-range start and an empty
query on the one-character row `"a"`. -/
theorem C10_find_rejects_witness :
    (([] : Str) = [] ∨ 4 > (Row.ofStr ['a']).len) ∧
      (Row.ofStr ['a']).find ['z'] 4 SearchDirection.Forward = none ∧
      (Row.ofStr ['a']).find [] 0 SearchDirection.Backward = none :=
  ⟨Or.inl rfl,
    C10_find_rejects _ _ _ _ (Or.inr (by decide)),
    C10_find_rejects _ _ _ _ (Or.inl rfl)⟩

theorem saveWriteLoop_none (rows : List Row) :
    ∀ op, saveWriteLoop rows op none = Except.ok (saveContent rows) := by
  induction rows with
  | nil => intro op; rfl
  | cons r rs ih =>
    intro op
    unfold saveWriteLoop
    rw [if_neg (by simp), ih (op + 2)]
    simp [saveContent]

theorem save_none_eq {d : Document} (h : d.file_name = none) (f : Option Nat) :
    d.save f = (d, Except.ok []) := by
  unfold Document.save
  rw [h]

theorem save_some_success {d : Document} {n : Str} (h : d.file_name = some n) :
    (d.save none).2 = Except.ok (saveContent d.rows) ∧
      (d.save none).1.dirty = false ∧ (d.save none).1.rows = d.rows := by
  unfold Document.save
  rw [h]
  dsimp only
  rw [if_neg (by simp)]
  rw [saveWriteLoop_none d.rows 1]
  exact ⟨rfl, rfl, rfl⟩

theorem save_error_state {d : Document} {f : Option Nat} {e : Unit}
    (h : (d.save f).2 = Except.error e) :
    (d.save f).1.dirty = d.dirty ∧ (d.save f).1.rows = d.rows := by
  unfold Document.save at h ⊢
  cases hn : d.file_name with
  | none =>
    rw [hn] at h
    simp at h
  | some name =>
    rw [hn] at h
    dsimp only at h ⊢
    by_cases h0 : f = some 0
    · rw [if_pos h0] at h ⊢
      exact ⟨rfl, rfl⟩
    · rw [if_neg h0] at h ⊢
      cases hw : saveWriteLoop d.rows 1 f with
      | ok w =>
        rw [hw] at h
        simp at h
      | error e2 =>
        exact ⟨rfl, rfl⟩

theorem save_ok_dirty {d : Document} {f : Option Nat} {w : Str}
    (h : (d.save f).2 = Except.ok w) :
    (d.save f).1.dirty = false ∨ (d.save f).1 = d := by
  unfold Document.save at h ⊢
  cases hn : d.file_name with
  | none =>
    exact Or.inr rfl
  | some name =>
    rw [hn] at h
    dsimp only at h ⊢
    by_cases h0 : f = some 0
    · rw [if_pos h0] at h
      simp at h
    · rw [if_neg h0] at h ⊢
      cases hw : saveWriteLoop d.rows 1 f with
      | ok w2 =>
        exact Or.inl rfl
      | error e2 =>
        rw [hw] at h
        simp at h

/-- The one-row document with no file name and unsaved changes. -/
def noNameDoc : Document :=
  { rows := [Row.ofStr ['a']], file_name := none, dirty := true,
    file_type := FileType.default }

/-- The same document with the file name `"t"`. -/
def namedDoc : Document :=
  { rows := [Row.ofStr ['a']], file_name := some ['t'], dirty := true,
    file_type := FileType.default }

/--
C5 (counterexample): `Document::save` does NOT fail with a `NoFileName`
error when the file name is unset — no such error exists in the code; it
returns `Ok(())` without writing anything, leaving the dirty document
unchanged (the editor layer prompts for a name before calling save).
-/
theorem C5_counterexample :
    noNameDoc.file_name = none ∧ noNameDoc.dirty = true ∧
      noNameDoc.save none = (noNameDoc, Except.ok []) :=
  ⟨rfl, rfl, rfl⟩

/--
C5 (amended): with the file name unset, save is a silent no-op that
returns success; with a name set, a fully successful save writes every
row's content followed by one newline, in row order, and clears the
dirty flag; on any write failure the dirty flag and the rows are left
unchanged.
-/
theorem C5_save_amended (d dn : Document) (n : Str) (f : Option Nat)
    (hn : d.file_name = some n) (hnone : dn.file_name = none) :
    dn.save f = (dn, Except.ok []) ∧
    (d.save none).2 = Except.ok (saveContent d.rows) ∧
    (d.save none).1.dirty = false ∧
    (∀ e, (d.save f).2 = Except.error e →
      (d.save f).1.dirty = d.dirty ∧ (d.save f).1.rows = d.rows) :=
  ⟨save_none_eq hnone f, (save_some_success hn).1, (save_some_success hn).2.1,
    fun _ he => save_error_state he⟩

/-- Witness for `C5_save_amended` on concrete documents (the write of
the first row fails in the error case). -/
theorem C5_save_amended_witness :
    noNameDoc.save (some 1) = (noNameDoc, Except.ok []) ∧
      (namedDoc.save none).2 = Except.ok (saveContent namedDoc.rows) ∧
      (namedDoc.save none).1.dirty = false ∧
      (namedDoc.save (some 1)).1.dirty = namedDoc.dirty := by
  have h := C5_save_amended namedDoc noNameDoc ['t'] (some 1) rfl rfl
  exact ⟨h.1, h.2.1, h.2.2.1, (h.2.2.2 () rfl).1⟩

theorem unhighlight_rows_dirty (d : Document) (n : Nat) :
    (d.unhighlight_rows n).dirty = d.dirty := rfl

theorem insert_newline_dirty (d : Document) (p : Position) :
    (d.insert_newline p).dirty = d.dirty := by
  unfold Document.insert_newline
  split
  · rfl
  split
  · rfl
  split <;> rfl

theorem insert_some_cases {d : Document} {p : Position} {c : Char}
    {d2 : Document} (h : Document.insert d p c = some d2) :
    d2 = d ∨ d2.dirty = true := by
  simp only [Document.insert] at h
  split at h
  · exact Or.inl (Option.some.inj h).symm
  · split at h
    · cases h
      right
      rw [unhighlight_rows_dirty, insert_newline_dirty]
    · split at h
      · cases h
        right
        rw [unhighlight_rows_dirty]
      · split at h
        next row heq =>
          cases h
          right
          rw [unhighlight_rows_dirty]
        next heq => exact absurd h (by simp)

theorem delete_noop_oob {d : Document} {p : Position} (h : p.y ≥ d.len) :
    d.delete p = d := by
  unfold Document.delete
  rw [if_pos h]

theorem delete_dirty_inrange {d : Document} {p : Position} (h : p.y < d.len) :
    (d.delete p).dirty = true := by
  simp only [Document.delete]
  rw [if_neg (by omega)]
  split
  next row heq =>
    split
    · split
      next => rw [unhighlight_rows_dirty]
      next => rfl
    · rw [unhighlight_rows_dirty]
  next heq => rfl

theorem stepOp_inv {t t2 : TrackedDoc} {op : EditOp}
    (hs : stepOp t op = some t2)
    (hinv : t.d.dirty = false → docStrings t.d = t.baseline) :
    t2.d.dirty = false → docStrings t2.d = t2.baseline := by
  cases op with
  | ins p c =>
    simp only [stepOp] at hs
    rcases Option.map_eq_some'.mp hs with ⟨d2, hd2, ht3⟩
    subst ht3
    intro hdirty
    rcases insert_some_cases hd2 with he | he
    · subst he
      exact hinv hdirty
    · exact absurd hdirty (by simp [he])
  | del p =>
    simp only [stepOp] at hs
    cases hs
    intro hdirty
    by_cases hy : p.y < t.d.len
    · exact absurd hdirty (by simp [delete_dirty_inrange hy])
    · rw [delete_noop_oob (by omega)] at hdirty ⊢
      exact hinv hdirty
  | sav f =>
    simp only [stepOp] at hs
    cases hw : (t.d.save f).2 with
    | ok w =>
      rw [hw] at hs
      cases hs
      intro hdirty
      by_cases hn : t.d.file_name = none
      · have hsv := save_none_eq hn f
        rw [if_pos hn]
        show docStrings (t.d.save f).1 = t.baseline
        rw [hsv]
        apply hinv
        rw [hsv] at hdirty
        exact hdirty
      · rw [if_neg hn]
    | error e =>
      rw [hw] at hs
      cases hs
      intro hdirty
      obtain ⟨hdd, hdr⟩ := save_error_state hw
      show docStrings (t.d.save f).1 = t.baseline
      have : docStrings (t.d.save f).1 = docStrings t.d := by
        unfold docStrings
        rw [hdr]
      rw [this]
      apply hinv
      rw [hdd] at hdirty
      exact hdirty

theorem runOps_inv :
    ∀ (ops : List EditOp) (t t2 : TrackedDoc), runOps t ops = some t2 →
      (t.d.dirty = false → docStrings t.d = t.baseline) →
      (t2.d.dirty = false → docStrings t2.d = t2.baseline) := by
  intro ops
  induction ops with
  | nil =>
    intro t t2 h hinv
    cases h
    exact hinv
  | cons op ops ih =>
    intro t t2 h hinv
    unfold runOps at h
    cases hs : stepOp t op with
    | none =>
      rw [hs] at h
      cases h
    | some t3 =>
      rw [hs] at h
      exact ih t3 t2 h (stepOp_inv hs hinv)

/--
C6 (amended): across any sequence of inserts, deletes and saves starting
from a loaded document, `dirty = false` implies the content equals the
content at the last successful save (or the load) — content that differs
from the baseline implies `dirty`.  The converse direction of the
claimed iff fails: a delete whose row is in range sets `dirty`
unconditionally, even when it changes no content.
-/
theorem C6_dirty_amended (lines : List Str) (name : Str) (ops : List EditOp)
    (t : TrackedDoc)
    (h : runOps (TrackedDoc.openFrom lines name) ops = some t)
    (hd : t.d.dirty = false) :
    docStrings t.d = t.baseline ∧
      (∀ (d : Document) (p : Position), p.y < d.len →
        (d.delete p).dirty = true) :=
  ⟨runOps_inv ops (TrackedDoc.openFrom lines name) t h (fun _ => rfl) hd,
    fun _ _ hp => delete_dirty_inrange hp⟩

/--
C6 (counterexample): on the freshly loaded one-row document `["a"]`,
deleting at column 1 of row 0 changes no content (the column is at the
row's length and there is no following row to merge), yet the dirty
flag flips from `false` to `true` — so `dirty` is not equivalent to
"content differs from the last successful save".
-/
theorem C6_counterexample :
    (Document.openLines [['a']] ['t']).dirty = false ∧
      ((Document.openLines [['a']] ['t']).delete { x := 1, y := 0 }).rows =
        (Document.openLines [['a']] ['t']).rows ∧
      ((Document.openLines [['a']] ['t']).delete { x := 1, y := 0 }).dirty
        = true := by
  refine ⟨rfl, by decide, by decide⟩

/-- The state reached by deleting the only character of `["a"]` and then
saving successfully. -/
def c6WitnessT : TrackedDoc :=
  { d := { rows := [Row.default]
           file_name := some ['t']
           dirty := false
           file_type := FileType.default }
    baseline := [[]] }

/-- Witness for `C6_dirty_amended`: delete then successful save. -/
theorem C6_dirty_amended_witness :
    runOps (TrackedDoc.openFrom [['a']] ['t'])
        [EditOp.del { x := 0, y := 0 }, EditOp.sav none] = some c6WitnessT ∧
      c6WitnessT.d.dirty = false ∧
      docStrings c6WitnessT.d = c6WitnessT.baseline := by
  refine ⟨rfl, rfl, ?_⟩
  exact (C6_dirty_amended [['a']] ['t']
    [EditOp.del { x := 0, y := 0 }, EditOp.sav none] c6WitnessT rfl rfl).1

theorem find_guard_none (r : Row) (q : Str) (a : Nat) (dir : SearchDirection)
    (h : q = [] ∨ a > r.len) : r.find q a dir = none := by
  unfold Row.find
  rw [if_pos (by tauto)]

theorem findLoop_none {d : Document} {q : Str} {dir : SearchDirection}
    (hq : ∀ r ∈ d.rows, ∀ a, a ≤ r.len → r.find q a dir = none) :
    ∀ (n : Nat) (pos : Position), findLoop d q dir n pos = none := by
  intro n
  induction n with
  | zero => intro pos; rfl
  | succ m ih =>
    intro pos
    unfold findLoop
    cases hg : d.rows.get? pos.y with
    | none => rfl
    | some row =>
      have hmem : row ∈ d.rows := List.get?_mem hg
      have hfind : row.find q pos.x dir = none := by
        by_cases hx : pos.x ≤ row.len
        · exact hq row hmem pos.x hx
        · exact find_guard_none row q pos.x dir (Or.inr (by omega))
      dsimp only
      split
      next heq =>
        rw [hfind] at heq
        cases heq
      next heq =>
        split
        · exact ih _
        · exact ih _

/--
C7: forward search from (0,0) over `["a cat", "cat dog"]` finds `"cat"`
at row 0, column 2; forward search from (3,0) starts past that match and
finds the next occurrence at (0,1); backward search from (1,5) takes the
rightmost match within the prefix of row 1 ending at column 5, i.e.
(1,0); backward search for `"dog"` starting on row 0 scans only earlier
rows and finds nothing; and whenever the per-row search finds nothing
anywhere, `Document::find` returns `None`.
-/
theorem C7_find_examples :
    searchExampleDoc.find "cat".toList { x := 0, y := 0 }
        SearchDirection.Forward = some { x := 2, y := 0 } ∧
    searchExampleDoc.find "cat".toList { x := 3, y := 0 }
        SearchDirection.Forward = some { x := 0, y := 1 } ∧
    searchExampleDoc.find "cat".toList { x := 5, y := 1 }
        SearchDirection.Backward = some { x := 0, y := 1 } ∧
    searchExampleDoc.find "dog".toList { x := 5, y := 0 }
        SearchDirection.Backward = none ∧
    (∀ (d : Document) (q : Str) (p : Position) (dir : SearchDirection),
      (∀ r ∈ d.rows, ∀ a, a ≤ r.len → r.find q a dir = none) →
      d.find q p dir = none) := by
  refine ⟨by decide, by decide, by decide, by decide, ?_⟩
  intro d q p dir hq
  unfold Document.find
  split
  · rfl
  · exact findLoop_none hq _ _

/-- Witness for the no-match clause of `C7_find_examples`. -/
theorem C7_find_examples_witness :
    (∀ r ∈ searchExampleDoc.rows, ∀ a, a ≤ r.len →
      r.find "zzz".toList a SearchDirection.Forward = none) ∧
      searchExampleDoc.find "zzz".toList { x := 0, y := 0 }
        SearchDirection.Forward = none := by
  refine ⟨by decide, ?_⟩
  exact C7_find_examples.2.2.2.2 searchExampleDoc "zzz".toList
    { x := 0, y := 0 } SearchDirection.Forward (by decide)

end Ironn
